import Mathlib

/-!
Verification of the `CodeGrapher` engine (`code_grapher.py`) against its
natural-language specification.

The embedding below translates the budgeting, filtering, prioritization,
symbol-extraction-order, import-resolution and path-classification logic of
the source into executable Lean definitions.  File contents, parse trees and
directory listings are passed in as explicit values wherever the Python code
obtained them from the filesystem; paths are taken as already absolute and
normalized, so `os.path.abspath`/`os.path.normpath` act as the identity on
them.  Code text is ASCII, so Python's `\s` character class is modelled by
the ASCII whitespace characters.
-/

namespace CodeGrapherSpec

/-! ## String utilities (Python semantics, kernel-reducible) -/

/-- Python whitespace for `str.strip` and the `\s` class: space, tab, newline,
carriage return, vertical tab, form feed. -/
def pyIsSpace (c : Char) : Bool :=
  c = ' ' || c = '\t' || c = '\n' || c = '\r' || c = '\x0b' || c = '\x0c'

/-- `str.strip()`: remove leading and trailing whitespace. -/
def pyStrip (s : String) : String :=
  String.mk (((s.toList.dropWhile pyIsSpace).reverse.dropWhile pyIsSpace).reverse)

/-- `str.startswith(pre)`. -/
def pyStartsWith (s pre : String) : Bool :=
  pre.toList.isPrefixOf s.toList

/-- `sub` occurs as a contiguous run inside `l`. -/
def listIsInfix : List Char → List Char → Bool
  | sub, [] => sub.isEmpty
  | sub, c :: t => sub.isPrefixOf (c :: t) || listIsInfix sub t

/-- `sub in s` (Python substring containment). -/
def pyContains (s sub : String) : Bool :=
  listIsInfix sub.toList s.toList

/-- Split a character list at newline characters. -/
def splitAtNewlines : List Char → List (List Char)
  | [] => [[]]
  | c :: cs =>
    let r := splitAtNewlines cs
    if c = '\n' then [] :: r
    else
      match r with
      | [] => [[c]]
      | h :: t => (c :: h) :: t

/-- `str.splitlines()` for `\n`-separated text: like splitting on `\n` but a
trailing newline does not produce a trailing empty line, and `""` gives `[]`. -/
def pySplitlines (s : String) : List String :=
  if s.toList.isEmpty then []
  else
    let parts := (splitAtNewlines s.toList).map String.mk
    if s.toList.getLast? = some '\n' then parts.dropLast else parts

/-- `"\n".join(lines)`. -/
def joinLines : List String → String
  | [] => ""
  | [l] => l
  | l :: ls => l ++ "\n" ++ joinLines ls

/-! ## Token counting (`_count_tokens`, src 433-451)

`re.split(r"[\s\(\)\[\]\{\}:;,\.\"\']+", code)` and counting the non-empty
pieces is exactly counting the maximal runs of non-delimiter characters. -/

/-- The delimiter class of the token pattern: whitespace, parentheses, square
brackets, curly braces, colon, semicolon, comma, period, double quote, single
quote. -/
def isTokenDelim (c : Char) : Bool :=
  pyIsSpace c ||
  c = '(' || c = ')' || c = '[' || c = ']' || c = '\x7b' || c = '\x7d' ||
  c = ':' || c = ';' || c = ',' || c = '.' || c = '\x22' || c = '\x27'

/-- Count maximal runs of non-delimiter characters; the flag records whether
we are currently inside a run. -/
def countTokensAux : Bool → List Char → Nat
  | _, [] => 0
  | inTok, c :: cs =>
    if isTokenDelim c then countTokensAux false cs
    else (if inTok then 0 else 1) + countTokensAux true cs

/-- `_count_tokens` (src 433-451). -/
def count_tokens (code_string : String) : Nat :=
  countTokensAux false code_string.toList

/-! ## Data model -/

/-- A Python result-dictionary entry for one extracted object (see
`_extract_object`, src 222-228).  `reference_type` is `""` when the key is
absent; `truncated` is `false` when the key is absent. -/
structure CodeObject where
  name : String
  file : String
  type : String
  code : String
  docstring : String
  reference_type : String
  truncated : Bool
  deriving Repr, DecidableEq

/-- The result dictionary built by `extract_code` (src 117-122).  The
`truncated` key exists only after `_prioritize_code` has run, hence
`Option Bool`. -/
structure ExtractionResult where
  main_object : CodeObject
  referenced_objects : List CodeObject
  token_count : Nat
  token_limit : Nat
  truncated : Option Bool
  deriving Repr, DecidableEq

/-- The mutable instance state of a `CodeGrapher` (src 21-30). -/
structure CodeGrapher where
  token_limit : Nat
  visited_files : List String
  referenced_objects : List CodeObject
  deriving Repr, DecidableEq

/-! ## External-library classification (`_is_external_library`, src 597-621) -/

def externalIndicators : List String :=
  ["/usr/lib/", "/usr/local/lib/", "site-packages/", "dist-packages/",
   ".venv/", "venv/", "env/", "/lib/python", "/Lib/python"]

/-- `_is_external_library` (src 597-621): substring check of the fixed
indicator set against the (already absolute, normalized) path. -/
def is_external_library (file_path : String) : Bool :=
  externalIndicators.any (fun ind => pyContains file_path ind)

/-! ## Budget prioritization (`_prioritize_code`, src 453-526) -/

/-- The sort key (src 478-482): classes score 0, everything else 1, then the
token count of the object's code. -/
def priority_key (obj : CodeObject) : Nat × Nat :=
  ((if obj.type = "class" then 0 else 1), count_tokens obj.code)

/-- Lexicographic comparison of sort keys, i.e. Python's tuple ordering. -/
def refLE (a b : CodeObject) : Prop :=
  (priority_key a).1 < (priority_key b).1 ∨
    ((priority_key a).1 = (priority_key b).1 ∧ (priority_key a).2 ≤ (priority_key b).2)

instance : DecidableRel refLE := fun a b => by
  unfold refLE; exact inferInstance

instance : IsTotal CodeObject refLE := by
  constructor; intro a b; unfold refLE; omega

instance : IsTrans CodeObject refLE := by
  constructor; intro a b c; unfold refLE; omega

/-- Python's `sorted` with key `priority_key` is the unique stable sort by
that key, which `List.insertionSort` with the total preorder `refLE`
computes. -/
def pySortedRefs (refs : List CodeObject) : List CodeObject :=
  List.insertionSort refLE refs

/-- Signature-plus-docstring stand-in built in the overflow branch
(src 496-514). -/
def truncated_code_of (ref : CodeObject) : String :=
  if ref.type = "class" then
    let lines := pySplitlines ref.code
    let class_def := (lines.find? (fun l => pyStartsWith (pyStrip l) "class ")).getD ""
    class_def ++ "\n    \x22\x22\x22" ++ ref.docstring ++
      "\x22\x22\x22\n    # ... code truncated due to token limit"
  else if ref.type = "function" then
    let lines := pySplitlines ref.code
    let func_def := (lines.find? (fun l => pyStartsWith (pyStrip l) "def ")).getD ""
    func_def ++ "\n    \x22\x22\x22" ++ ref.docstring ++
      "\x22\x22\x22\n    # ... code truncated due to token limit"
  else
    "# " ++ ref.name ++ " (truncated due to token limit)"

/-- The greedy keep/stub/drop loop of `_prioritize_code` (src 487-519),
returning the kept references and the final running token total. -/
def keepRefs (token_limit : Nat) : List CodeObject → Nat → List CodeObject × Nat
  | [], current_tokens => ([], current_tokens)
  | ref :: rest, current_tokens =>
    let ref_tokens := count_tokens ref.code
    if current_tokens + ref_tokens ≤ token_limit then
      let r := keepRefs token_limit rest (current_tokens + ref_tokens)
      (ref :: r.1, r.2)
    else
      let truncated_code := truncated_code_of ref
      let truncated_tokens := count_tokens truncated_code
      if current_tokens + truncated_tokens ≤ token_limit then
        let truncated_ref : CodeObject :=
          { ref with code := truncated_code, truncated := true }
        let r := keepRefs token_limit rest (current_tokens + truncated_tokens)
        (truncated_ref :: r.1, r.2)
      else
        keepRefs token_limit rest current_tokens

/-- `_prioritize_code` (src 453-526).  `self.token_limit` equals the
dictionary's `token_limit` field at every call site (src 121, 125-126). -/
def prioritize_code (result_dict : ExtractionResult) : ExtractionResult :=
  let main_tokens := count_tokens result_dict.main_object.code
  let sorted_refs := pySortedRefs result_dict.referenced_objects
  let kc := keepRefs result_dict.token_limit sorted_refs main_tokens
  { result_dict with
    referenced_objects := kc.1
    token_count := kc.2
    truncated := some (kc.1.length < sorted_refs.length) }

/-! ## `extract_code` (src 32-128), from the point where the target file has
been parsed and the main object built.  The import traversal reads the
filesystem, so its outcome — the accumulated raw references and the set of
visited files — enters as explicit parameters. -/

/-- `os.path.dirname` for absolute POSIX paths. -/
def pyDirname (p : String) : String :=
  let cs := p.toList
  let afterDrop := cs.reverse.dropWhile (fun c => c ≠ '/')
  match afterDrop with
  | [] => ""
  | _ :: _ =>
    let head := afterDrop.reverse
    if head.all (fun c => c = '/') then String.mk head
    else String.mk ((head.reverse.dropWhile (fun c => c = '/')).reverse)

/-- The tail of `extract_code` (src 113-126): count tokens, build the result
dictionary, and prioritize when the total exceeds the limit. -/
def assemble_result (main_object : CodeObject) (refs : List CodeObject)
    (token_limit : Nat) : ExtractionResult :=
  let main_token_count := count_tokens main_object.code
  let result : ExtractionResult :=
    { main_object := main_object
      referenced_objects := refs
      token_count := main_token_count + (refs.map (fun o => count_tokens o.code)).sum
      token_limit := token_limit
      truncated := none }
  if result.token_count > token_limit then prioritize_code result else result

def extract_code (g : CodeGrapher) (target_file : String)
    (token_limit_arg : Option Nat) (project_root_arg : Option String)
    (main_object : CodeObject) (traversal_refs : List CodeObject)
    (traversal_visited : List String) : CodeGrapher × ExtractionResult :=
  -- Reset state for new extraction (src 63-65)
  let g1 : CodeGrapher := { g with visited_files := [], referenced_objects := [] }
  -- Update token limit if specified (src 67-69): a durable field write
  let g2 : CodeGrapher :=
    match token_limit_arg with
    | some l => { g1 with token_limit := l }
    | none => g1
  -- Default project root: directory of the target file (src 74-77)
  let project_root : String :=
    match project_root_arg with
    | some r => r
    | none => pyDirname target_file
  -- The target file is marked visited and the traversal accumulates
  -- references (src 101-105)
  let g3 : CodeGrapher := { g2 with
    visited_files := target_file :: traversal_visited
    referenced_objects := traversal_refs }
  -- Filter out referenced objects from external libraries (src 107-111):
  -- keep those that are not external and whose path starts with project_root
  let refs := g3.referenced_objects.filter
    (fun o => !is_external_library o.file && pyStartsWith o.file project_root)
  let g4 : CodeGrapher := { g3 with referenced_objects := refs }
  -- Count tokens, build the result, prioritize if needed (src 113-126)
  (g4, assemble_result main_object refs g4.token_limit)

/-! ## Spec-side reading of the prioritizer (claim C3)

A second definition, written from the specification's own words: consider the
sorted references one by one; keep a reference whole when it fits the
remaining budget, otherwise keep its signature-plus-docstring stand-in when
that fits, otherwise drop it. -/

def prioritizeSpecSelect (token_limit : Nat) : Nat → List CodeObject → List CodeObject
  | _, [] => []
  | used, ref :: rest =>
    if used + count_tokens ref.code ≤ token_limit then
      ref :: prioritizeSpecSelect token_limit (used + count_tokens ref.code) rest
    else if used + count_tokens (truncated_code_of ref) ≤ token_limit then
      { ref with code := truncated_code_of ref, truncated := true } ::
        prioritizeSpecSelect token_limit (used + count_tokens (truncated_code_of ref)) rest
    else
      prioritizeSpecSelect token_limit used rest

/-! ## Spec notion of path containment (claim C5) -/

/-- `p` lies strictly below directory `root`: the directory part of `p`
continues `root` at a path-component boundary. -/
def isStrictDescendant (p root : String) : Bool :=
  pyStartsWith p (root ++ "/")

/-! ## Symbol extraction (`_extract_object`, src 153-230)

The declaration tree of a parsed unit.  Every node carries its child
statements; class and function definitions additionally carry their name,
start and end line and docstring (`ast.get_docstring(node) or ""`).  The
`end_lineno`-absent fallback of src 191-212 is for interpreters that do not
report end positions and is not modelled: `end_lineno` is always present. -/

inductive PyNode where
  | module (body : List PyNode)
  | classDef (name : String) (lineno : Nat) (end_lineno : Nat) (docstring : String)
      (body : List PyNode)
  | functionDef (name : String) (lineno : Nat) (end_lineno : Nat) (docstring : String)
      (body : List PyNode)
  | other (body : List PyNode)

/-- `ast.iter_child_nodes`. -/
def nodeChildren : PyNode → List PyNode
  | .module b => b
  | .classDef _ _ _ _ b => b
  | .functionDef _ _ _ _ b => b
  | .other b => b

mutual
/-- Size measure for termination of traversals. -/
def nodeSize : PyNode → Nat
  | .module b => 1 + nodesSize b
  | .classDef _ _ _ _ b => 1 + nodesSize b
  | .functionDef _ _ _ _ b => 1 + nodesSize b
  | .other b => 1 + nodesSize b

def nodesSize : List PyNode → Nat
  | [] => 0
  | n :: ns => nodeSize n + nodesSize ns
end

/-- Children of every node of a list, in order. -/
def childrenOfAll : List PyNode → List PyNode
  | [] => []
  | n :: ns => nodeChildren n ++ childrenOfAll ns

/-- CPython's `ast.walk`: a queue seeded with the root; pop the front node,
enqueue its children at the back, yield the node.  Breadth-first order. -/
def astWalk : List PyNode → List PyNode
  | [] => []
  | n :: todo => n :: astWalk (todo ++ nodeChildren n)
termination_by l => nodesSize l
decreasing_by
  have happ : ∀ (a b : List PyNode), nodesSize (a ++ b) = nodesSize a + nodesSize b := by
    intro a b
    induction a with
    | nil => simp [nodesSize]
    | cons x xs ih => simp [nodesSize, ih]; omega
  have hch : nodesSize (nodeChildren n) < nodeSize n := by
    cases n <;> simp [nodesSize, nodeChildren, nodeSize]
  simp [nodesSize, happ]; omega

/-- The node test of src 182-183: a `ClassDef` or `FunctionDef` whose name
equals the requested one. -/
def isMatchingDecl (object_name : String) : PyNode → Bool
  | .classDef n _ _ _ _ => n = object_name
  | .functionDef n _ _ _ _ => n = object_name
  | _ => false

/-- `source_code.splitlines()[start_line - 1 : end_line]` joined with
newlines (src 214-217). -/
def sliceLines (source_code : String) (start_line end_line : Nat) : String :=
  joinLines (((pySplitlines source_code).drop (start_line - 1)).take
    (end_line - (start_line - 1)))

/-- Build the result dictionary of src 222-228 from a matched node. -/
def declCodeObject (source_code : String) (file_path : String) : PyNode → Option CodeObject
  | .classDef n sl el doc _ =>
    some ⟨n, file_path, "class", sliceLines source_code sl el, doc, "", false⟩
  | .functionDef n sl el doc _ =>
    some ⟨n, file_path, "function", sliceLines source_code sl el, doc, "", false⟩
  | _ => none

/-- `_extract_object` (src 153-230): the first matching node of `ast.walk`
wins. -/
def extract_object (ast_tree : PyNode) (source_code : String) (object_name : String)
    (file_path : String) : Option CodeObject :=
  ((astWalk [ast_tree]).find? (isMatchingDecl object_name)).bind
    (declCodeObject source_code file_path)

mutual
/-- Pre-order (declaration-order) traversal of the declaration tree — the
order claim C7 asserts for `_extract_object`. -/
def preorderNode : PyNode → List PyNode
  | .module b => PyNode.module b :: preorderList b
  | .classDef n a c d b => PyNode.classDef n a c d b :: preorderList b
  | .functionDef n a c d b => PyNode.functionDef n a c d b :: preorderList b
  | .other b => PyNode.other b :: preorderList b

def preorderList : List PyNode → List PyNode
  | [] => []
  | n :: ns => preorderNode n ++ preorderList ns
end

/-- Claim C7's reading of `_extract_object`: first name match in pre-order. -/
def preorder_extract_object (ast_tree : PyNode) (source_code : String)
    (object_name : String) (file_path : String) : Option CodeObject :=
  ((preorderNode ast_tree).find? (isMatchingDecl object_name)).bind
    (declCodeObject source_code file_path)

/-- Level-order traversal: a whole generation in declaration order, then the
next generation, shallowest first. -/
def levelOrderNodes : List PyNode → List PyNode
  | [] => []
  | n :: rest => (n :: rest) ++ levelOrderNodes (childrenOfAll (n :: rest))
termination_by l => nodesSize l
decreasing_by
  have happ : ∀ (a b : List PyNode), nodesSize (a ++ b) = nodesSize a + nodesSize b := by
    intro a b
    induction a with
    | nil => simp [nodesSize]
    | cons x xs ih => simp [nodesSize, ih]; omega
  have hch : ∀ m : PyNode, nodesSize (nodeChildren m) < nodeSize m := by
    intro m; cases m <;> simp [nodesSize, nodeChildren, nodeSize]
  have hle : ∀ l : List PyNode, nodesSize (childrenOfAll l) ≤ nodesSize l := by
    intro l
    induction l with
    | nil => simp [childrenOfAll, nodesSize]
    | cons x xs ih =>
      have := hch x
      simp [childrenOfAll, nodesSize, happ]; omega
  have hlt : ∀ (x : PyNode) (xs : List PyNode),
      nodesSize (childrenOfAll (x :: xs)) < nodesSize (x :: xs) := by
    intro x xs
    have := hch x
    have := hle xs
    simp [childrenOfAll, nodesSize, happ]; omega
  exact hlt _ _

/-- The amended reading of `_extract_object`: first name match in level
order — a shallower declaration wins over a deeper one regardless of line
numbers; within one depth, declaration order decides. -/
def level_order_extract_object (ast_tree : PyNode) (source_code : String)
    (object_name : String) (file_path : String) : Option CodeObject :=
  ((levelOrderNodes [ast_tree]).find? (isMatchingDecl object_name)).bind
    (declCodeObject source_code file_path)

/-! ## Import statement dispatch and the from-import call (claim C2)

`_resolve_imports` (src 276-295) walks the statements of a file and
dispatches.  The whole body of `_process_imported_module` sits inside
`try/except` (src 314-358), so that call cannot raise.  The call to
`_process_imported_object` at src 292, however, passes five positional
arguments to a method declared (src 360) with three required and at most
four accepted positional parameters — the Python interpreter raises
`TypeError` at the call itself, before the callee's `try` is entered, and
`_resolve_imports` contains no handler, nor does `extract_code` around its
`_resolve_imports` call (src 105). -/

inductive PyError where
  | typeError
  deriving Repr, DecidableEq

inductive ImportStatement where
  | importName (module : String)
  | importFrom (module : Option String) (names : List String)
  deriving Repr, DecidableEq

/-- Positional parameters (after `self`) of `_process_imported_object`:
three required, four maximum (src 360). -/
def process_imported_object_required_params : Nat := 3
def process_imported_object_max_params : Nat := 4

/-- Positional arguments (after `self`) passed at src 292. -/
def process_imported_object_call_args : Nat := 5

/-- Python accepts a positional call iff the argument count lies between the
required and the maximum parameter count. -/
def pyCallArityOk (required maxParams given : Nat) : Bool :=
  required ≤ given && given ≤ maxParams

/-- The src 292 call: raises `TypeError` when the arity check fails. -/
def process_imported_object_call : Except PyError Unit :=
  if pyCallArityOk process_imported_object_required_params
      process_imported_object_max_params process_imported_object_call_args
  then Except.ok ()
  else Except.error PyError.typeError

/-- `_process_imported_module` (src 297-358): body wrapped in `try/except`,
cannot raise. -/
def process_imported_module_call : Except PyError Unit := Except.ok ()

/-- `_try_find_project_module` (src 528-595): file reads go through
`_parse_file`, which catches, and `os.walk` swallows listing errors; no
raising operation on this path. -/
def try_find_project_module_call : Except PyError Unit := Except.ok ()

/-- The inner loop over the imported names of one `from` statement
(src 290-292). -/
def process_from_import_names : List String → Except PyError Unit
  | [] => Except.ok ()
  | _ :: rest => do
    process_imported_object_call
    process_from_import_names rest

/-- The statement dispatch of `_resolve_imports` (src 276-295); relative
imports without a module (`node.module` falsy) are skipped (src 288). -/
def resolve_imports (stmts : List ImportStatement) : Except PyError Unit :=
  match stmts with
  | [] => Except.ok ()
  | ImportStatement.importName _ :: rest => do
    process_imported_module_call
    try_find_project_module_call
    resolve_imports rest
  | ImportStatement.importFrom none _ :: rest => resolve_imports rest
  | ImportStatement.importFrom (some _) names :: rest => do
    process_from_import_names names
    try_find_project_module_call
    resolve_imports rest

/-- The import-resolution phase of `extract_code` (src 105): the
`_resolve_imports` call has no surrounding `try/except`, so an exception
propagates to `extract_code`'s caller. -/
def extract_code_import_resolution (stmts : List ImportStatement) : Except PyError Unit :=
  resolve_imports stmts

/-! ## Depth-bounded traversal on an import chain (claim C6)

A project of `N` files indexed `0 .. N-1`, all in one directory, where file
`i` contains the single statement `import` of file `i+1` (when `i+1 < N`)
and nothing else.  The three mutually recursive methods are embedded with an
explicit fuel parameter standing for the call stack; `none` would mean the
recursion needed more nesting than the fuel allows. -/

def MAX_IMPORT_DEPTH : Nat := 5

structure TraversalState where
  visited : List Nat
  refs : List Nat
  deriving Repr, DecidableEq

mutual
/-- `_resolve_imports` (src 232-295) on the chain project: cycle guard,
stack update, depth guard, then per-statement processing — file `file`
holds one `import` of `file + 1` when that file exists. -/
def chainResolveImports (fuel : Nat) (N : Nat) (file : Nat) (depth : Nat)
    (stack : List Nat) (st : TraversalState) : Option TraversalState :=
  match fuel with
  | 0 => none
  | fuel + 1 =>
    if file ∈ stack then some st
    else
      let stack := file :: stack
      if depth > MAX_IMPORT_DEPTH then some st
      else if file + 1 < N then
        match chainProcessImportedModule fuel N (file + 1) (depth + 1) stack st with
        | none => none
        | some st1 => chainTryFindProjectModule fuel N (file + 1) st1
      else some st

/-- `_process_imported_module` (src 297-358) on the chain project: the file
exists in the importing directory and parses; skip if visited, otherwise
mark visited, extract its declarations, and recurse into its imports only
when `import_depth < 5` (src 353-355) with the depth passed unchanged. -/
def chainProcessImportedModule (fuel : Nat) (N : Nat) (m : Nat) (depth : Nat)
    (stack : List Nat) (st : TraversalState) : Option TraversalState :=
  match fuel with
  | 0 => none
  | fuel + 1 =>
    if m ∈ st.visited then some st
    else
      let st1 : TraversalState := ⟨m :: st.visited, st.refs ++ [m]⟩
      if depth < 5 then chainResolveImports fuel N m depth stack st1
      else some st1

/-- `_try_find_project_module` (src 528-595) on the chain project: the walk
finds the unique file of the requested base name when it exists; an already
visited hit is skipped (src 566-568) and the walk then finds nothing else;
an unvisited hit is extracted and recursed into with depth reset to `0` and
a fresh call stack (src 592). -/
def chainTryFindProjectModule (fuel : Nat) (N : Nat) (m : Nat)
    (st : TraversalState) : Option TraversalState :=
  match fuel with
  | 0 => none
  | fuel + 1 =>
    if m < N then
      if m ∈ st.visited then some st
      else
        let st1 : TraversalState := ⟨m :: st.visited, st.refs ++ [m]⟩
        chainResolveImports fuel N m 0 [m] st1
    else some st
end

/-! ## The project-tree fallback scan (claim C8)

The loop of `_try_find_project_module` (src 550-595) over the entries of
`os.walk(project_root)`.  `found_files` is initialized to `[]` once before
the loop (src 551); no statement of the loop appends to it, so it is
threaded through unchanged.  The second component counts the walk entries
iterated before the function returns. -/

structure WalkEntry where
  root : String
  files : List String
  deriving Repr, DecidableEq

def find_project_module_scan (base_module : String) (visited : List String) :
    List String → List WalkEntry → Nat → Option String × Nat
  | _, [], scanned => (none, scanned)
  | found_files, e :: rest, scanned =>
    -- Skip external libraries and cache directories (src 553-555)
    if is_external_library e.root || pyContains e.root "__pycache__" ||
        pyContains e.root ".git" then
      find_project_module_scan base_module visited found_files rest (scanned + 1)
    -- The cap (src 557-559): unreachable while found_files stays empty
    else if found_files.length > 10 then (none, scanned + 1)
    else
      -- Inner loop over the entry's files (src 561-595); directory listings
      -- hold distinct names, so at most one file matches
      match e.files.find? (fun f => f = base_module ++ ".py") with
      | some f =>
        let module_path := e.root ++ "/" ++ f
        if module_path ∈ visited then
          find_project_module_scan base_module visited found_files rest (scanned + 1)
        else
          (some module_path, scanned + 1)
      | none => find_project_module_scan base_module visited found_files rest (scanned + 1)

/-! ## The fallback-search root (claim C10)

Paths as segment lists (`[]` is the filesystem root `/`); `List.dropLast`
is `os.path.dirname`.  `hasGit d` says the directory `d` contains a `.git`
entry. -/

/-- The while loop of src 267-273: climb from `file_dir` towards `/`
looking for a directory that contains `.git`; when the climb reaches `/`
without a hit (`dirname(p) == p`), fall back to `file_dir`. -/
def gitAncestorLoop (hasGit : List String → Bool) (file_dir : List String) :
    List String → List String
  | [] => if hasGit [] then [] else file_dir
  | c :: t =>
    if hasGit (c :: t) then c :: t
    else gitAncestorLoop hasGit file_dir ((c :: t).dropLast)
termination_by p => p.length
decreasing_by
  simp [List.length_dropLast]

/-- The `project_root` variable computed inside `_resolve_imports`
(src 264-273) from the processed file's own directory. -/
def resolve_imports_project_root (hasGit : List String → Bool)
    (file_dir : List String) : List String :=
  gitAncestorLoop hasGit file_dir file_dir

/-- The root of the fallback search performed while extracting
`target_file`: `extract_code` invokes `_resolve_imports` with only the tree
and the file path (src 105), so the caller-supplied `project_root` argument
never reaches the search-root computation. -/
def extract_code_fallback_search_root (hasGit : List String → Bool)
    (target_file : List String) (_project_root_arg : Option (List String)) :
    List String :=
  resolve_imports_project_root hasGit target_file.dropLast

/-! ## Concrete objects for counterexamples and witnesses -/

/-- A five-token module-level main object. -/
def mainObjectA : CodeObject :=
  ⟨"t", "/p/t.py", "module", "a b c d e", "", "", false⟩

/-- A seventeen-token function reference whose stand-in costs ten tokens. -/
def refFunctionA : CodeObject :=
  ⟨"f", "/p/m.py", "function",
   "def f(x):\n    return a1 + b2 + c3 + d4 + e5 + f6 + g7", "", "import", false⟩

/-- A reference whose path shares a string prefix with `/a/b` without lying
below that directory. -/
def refSiblingPath : CodeObject :=
  ⟨"x", "/a/bc.py", "class", "class x: pass", "", "import", false⟩

/-- Target file with one reference, limit 16: the reference is degraded to
its stand-in but nothing is dropped. -/
def c4DegradedRun : ExtractionResult :=
  (extract_code ⟨8000, [], []⟩ "/p/t.py" (some 16) none mainObjectA [refFunctionA] []).2

/-- Target file with zero imports under a sufficient limit. -/
def c4ZeroImportRun : ExtractionResult :=
  (extract_code ⟨8000, [], []⟩ "/p/t.py" (some 8000) none mainObjectA [] []).2

/-- Extraction with project root `/a/b` and one accumulated reference whose
path `/a/bc.py` merely shares the string prefix. -/
def c5SiblingRun : ExtractionResult :=
  (extract_code ⟨8000, [], []⟩ "/a/b/t.py" (some 9999) (some "/a/b") mainObjectA
    [refSiblingPath] []).2

/-- A unit with a nested `foo` on line 2 inside class `A` and a top-level
`foo` on line 4. -/
def dupNameModule : PyNode :=
  PyNode.module
    [PyNode.classDef "A" 1 3 "" [PyNode.functionDef "foo" 2 3 "" []],
     PyNode.functionDef "foo" 4 5 "" []]

def dupNameSource : String :=
  "class A:\n    def foo(self):\n        pass\ndef foo():\n    pass"

/-- A reference genuinely below the project root `/a/b`. -/
def refChildPath : CodeObject :=
  ⟨"y", "/a/b/m.py", "class", "class y: pass", "", "import", false⟩

/-! # Theorems -/

/-- Helper: the running total of the greedy loop never exceeds the limit when
it starts at or below it — every addition is guarded. -/
theorem keepRefs_snd_le (limit : Nat) (refs : List CodeObject) :
    ∀ current : Nat, current ≤ limit → (keepRefs limit refs current).2 ≤ limit := by
  induction refs with
  | nil => intro current h; simpa [keepRefs] using h
  | cons ref rest ih =>
    intro current h
    simp only [keepRefs]
    split
    · exact ih _ (by assumption)
    · split
      · exact ih _ (by assumption)
      · exact ih _ h

/-- Helper: a running total already above the limit admits nothing — neither
a whole reference nor a stand-in. -/
theorem keepRefs_over (limit : Nat) (refs : List CodeObject) :
    ∀ current : Nat, limit < current → keepRefs limit refs current = ([], current) := by
  induction refs with
  | nil => intro current _; simp [keepRefs]
  | cons ref rest ih =>
    intro current h
    simp only [keepRefs]
    rw [if_neg (by omega), if_neg (by omega)]
    exact ih _ h

theorem prioritize_code_token_limit (r : ExtractionResult) :
    (prioritize_code r).token_limit = r.token_limit := rfl

theorem prioritize_code_main_object (r : ExtractionResult) :
    (prioritize_code r).main_object = r.main_object := rfl

theorem prioritize_code_token_count (r : ExtractionResult) :
    (prioritize_code r).token_count =
      (keepRefs r.token_limit (pySortedRefs r.referenced_objects)
        (count_tokens r.main_object.code)).2 := rfl

theorem prioritize_code_refs (r : ExtractionResult) :
    (prioritize_code r).referenced_objects =
      (keepRefs r.token_limit (pySortedRefs r.referenced_objects)
        (count_tokens r.main_object.code)).1 := rfl

theorem assemble_result_token_limit (m : CodeObject) (refs : List CodeObject) (tl : Nat) :
    (assemble_result m refs tl).token_limit = tl := by
  simp only [assemble_result]
  split
  · exact prioritize_code_token_limit _
  · rfl

/-- Helper: the budget facts at the level of `assemble_result`. -/
theorem assemble_result_budget (m : CodeObject) (refs : List CodeObject) (tl : Nat) :
    (count_tokens m.code ≤ tl → (assemble_result m refs tl).token_count ≤ tl) ∧
    (tl < count_tokens m.code →
      (assemble_result m refs tl).referenced_objects = [] ∧
      (assemble_result m refs tl).token_count = count_tokens m.code) := by
  constructor
  · intro h
    simp only [assemble_result]
    split
    · rw [prioritize_code_token_count]
      exact keepRefs_snd_le _ _ _ h
    · show count_tokens m.code + (refs.map (fun o => count_tokens o.code)).sum ≤ tl
      omega
  · intro h
    simp only [assemble_result]
    rw [if_pos (show count_tokens m.code +
      (refs.map (fun o => count_tokens o.code)).sum > tl by omega)]
    rw [prioritize_code_refs, prioritize_code_token_count]
    rw [keepRefs_over _ _ _ (show tl < count_tokens m.code from h)]
    exact ⟨rfl, rfl⟩

/-- Helper: the result component of `extract_code` in closed form. -/
theorem extract_code_snd (g : CodeGrapher) (tf : String) (tla : Option Nat)
    (pra : Option String) (main : CodeObject) (refs : List CodeObject)
    (vis : List String) :
    (extract_code g tf tla pra main refs vis).2 =
      assemble_result main
        (refs.filter (fun o => !is_external_library o.file &&
          pyStartsWith o.file (pra.getD (pyDirname tf))))
        (tla.getD g.token_limit) := by
  cases tla <;> cases pra <;> rfl

/-- C1: for every call to `extract_code`, the returned result's
`token_count` is at most its `token_limit`, except when the token count of
the main object's code alone exceeds the limit; in that one case the
returned `referenced_objects` list is empty and `token_count` equals the
token count of the main object's code. -/
theorem extract_code_budget_invariant (g : CodeGrapher) (tf : String)
    (tla : Option Nat) (pra : Option String) (main : CodeObject)
    (refs : List CodeObject) (vis : List String) :
    (count_tokens main.code ≤ (extract_code g tf tla pra main refs vis).2.token_limit →
      (extract_code g tf tla pra main refs vis).2.token_count ≤
        (extract_code g tf tla pra main refs vis).2.token_limit) ∧
    ((extract_code g tf tla pra main refs vis).2.token_limit < count_tokens main.code →
      (extract_code g tf tla pra main refs vis).2.referenced_objects = [] ∧
      (extract_code g tf tla pra main refs vis).2.token_count = count_tokens main.code) := by
  rw [extract_code_snd, assemble_result_token_limit]
  exact assemble_result_budget main _ _

/-- C1 witness: both cases at concrete inputs — limit 16 holds the budget,
limit 2 is exceeded by the five-token main object alone. -/
theorem extract_code_budget_invariant_witness :
    ((extract_code ⟨8000, [], []⟩ "/p/t.py" (some 16) none mainObjectA
        [refFunctionA] []).2.token_count ≤
      (extract_code ⟨8000, [], []⟩ "/p/t.py" (some 16) none mainObjectA
        [refFunctionA] []).2.token_limit) ∧
    ((extract_code ⟨8000, [], []⟩ "/p/t.py" (some 2) none mainObjectA
        [refFunctionA] []).2.referenced_objects = [] ∧
      (extract_code ⟨8000, [], []⟩ "/p/t.py" (some 2) none mainObjectA
        [refFunctionA] []).2.token_count = count_tokens mainObjectA.code) :=
  ⟨(extract_code_budget_invariant ⟨8000, [], []⟩ "/p/t.py" (some 16) none
      mainObjectA [refFunctionA] []).1 (by decide),
   (extract_code_budget_invariant ⟨8000, [], []⟩ "/p/t.py" (some 2) none
      mainObjectA [refFunctionA] []).2 (by decide)⟩

/-- C2: the claim says no error inside import resolution ever propagates to
`extract_code`'s caller, in particular for a `from module import name`
statement.  The code violates this: the src 292 call passes five positional
arguments to `_process_imported_object`, which accepts at most four, so the
interpreter raises `TypeError` outside every handler; a plain `import`
statement, by contrast, resolves without error. -/
theorem from_import_propagates_type_error :
    pyCallArityOk process_imported_object_required_params
      process_imported_object_max_params process_imported_object_call_args = false ∧
    extract_code_import_resolution [ImportStatement.importFrom (some "module") ["name"]] =
      Except.error PyError.typeError ∧
    extract_code_import_resolution [ImportStatement.importName "module"] =
      Except.ok () := ⟨rfl, rfl, rfl⟩

/-- Helper: the kept component of the greedy loop equals the spec-worded
keep/stub/drop selection. -/
theorem keepRefs_fst_eq_spec (limit : Nat) (refs : List CodeObject) :
    ∀ current : Nat,
      (keepRefs limit refs current).1 = prioritizeSpecSelect limit current refs := by
  induction refs with
  | nil => intro current; simp [keepRefs, prioritizeSpecSelect]
  | cons ref rest ih =>
    intro current
    simp only [keepRefs, prioritizeSpecSelect]
    split
    · simp only [List.cons.injEq, true_and]; exact ih _
    · split
      · simp only [List.cons.injEq, true_and]; exact ih _
      · exact ih _

/-- C3: when the total exceeds the limit, the prioritizer considers
references sorted by `(kind rank, token size)` — classes before the rest,
smaller first within a kind (the considered list is sorted by that key and
is a permutation of the candidates); each reference in that order is kept
whole if it fits, degraded to a signature-plus-docstring stand-in (bare
name comment for other kinds) if the stand-in fits, and dropped otherwise;
the main object is always kept in full. -/
theorem prioritize_code_follows_spec (r : ExtractionResult) :
    (prioritize_code r).main_object = r.main_object ∧
    List.Sorted refLE (pySortedRefs r.referenced_objects) ∧
    (pySortedRefs r.referenced_objects).Perm r.referenced_objects ∧
    (∀ a b : CodeObject, refLE a b ↔
      ((if a.type = "class" then 0 else 1) < (if b.type = "class" then 0 else 1) ∨
        ((if a.type = "class" then 0 else 1) = (if b.type = "class" then 0 else 1) ∧
          count_tokens a.code ≤ count_tokens b.code))) ∧
    (prioritize_code r).referenced_objects =
      prioritizeSpecSelect r.token_limit (count_tokens r.main_object.code)
        (pySortedRefs r.referenced_objects) := by
  refine ⟨rfl, List.sorted_insertionSort refLE _, List.perm_insertionSort refLE _, ?_, ?_⟩
  · intro a b
    simp [refLE, priority_key]
  · rw [prioritize_code_refs]
    exact keepRefs_fst_eq_spec _ _ _

/-- C4 counterexample: in the first run the only reference is degraded to a
stand-in (its `truncated` key is set and its code was replaced) yet the
result's `truncated` flag is `false`, refuting the "dropped **or degraded**"
reading; in the zero-import run the result carries no `truncated` key at
all rather than `false`. -/
theorem truncated_flag_counterexample :
    (c4DegradedRun.referenced_objects.map (fun o => o.truncated) = [true] ∧
      c4DegradedRun.referenced_objects.map (fun o => o.code) ≠
        [refFunctionA].map (fun o => o.code) ∧
      c4DegradedRun.truncated = some false) ∧
    (c4ZeroImportRun.referenced_objects = [] ∧
      c4ZeroImportRun.token_count = count_tokens mainObjectA.code ∧
      c4ZeroImportRun.truncated = none) := by decide

/-- C4 amended: when the prioritizer runs, the result's `truncated` flag is
true iff at least one reference was dropped entirely (fewer kept — whole or
as stand-ins — than candidates); a reference degraded to a stand-in but
kept does not set the flag.  For a target with zero imports under a
sufficient limit, `referenced_objects` is empty, `token_count` equals the
target's token count, and no `truncated` key is present at all. -/
theorem truncated_flag_amended (r : ExtractionResult) (g : CodeGrapher) (tf : String)
    (tla : Option Nat) (pra : Option String) (main : CodeObject) (vis : List String) :
    ((prioritize_code r).truncated =
      some (decide ((prioritize_code r).referenced_objects.length <
        r.referenced_objects.length))) ∧
    (count_tokens main.code ≤ (extract_code g tf tla pra main [] vis).2.token_limit →
      (extract_code g tf tla pra main [] vis).2.referenced_objects = [] ∧
      (extract_code g tf tla pra main [] vis).2.token_count = count_tokens main.code ∧
      (extract_code g tf tla pra main [] vis).2.truncated = none) := by
  constructor
  · have h1 : (prioritize_code r).truncated =
        some (decide ((prioritize_code r).referenced_objects.length <
          (pySortedRefs r.referenced_objects).length)) := rfl
    rw [h1, pySortedRefs, List.length_insertionSort]
  · intro h
    rw [extract_code_snd, assemble_result_token_limit] at h
    rw [extract_code_snd]
    simp only [List.filter_nil]
    simp only [assemble_result, List.map_nil, List.sum_nil]
    rw [if_neg (by omega)]
    exact ⟨rfl, by simp, rfl⟩

/-- C4 witness: the zero-import scenario at a concrete input. -/
theorem truncated_flag_amended_witness :
    (extract_code ⟨8000, [], []⟩ "/p/t.py" (some 8000) none mainObjectA
      [] []).2.referenced_objects = [] ∧
    (extract_code ⟨8000, [], []⟩ "/p/t.py" (some 8000) none mainObjectA
      [] []).2.token_count = count_tokens mainObjectA.code ∧
    (extract_code ⟨8000, [], []⟩ "/p/t.py" (some 8000) none mainObjectA
      [] []).2.truncated = none :=
  (truncated_flag_amended ⟨mainObjectA, [], 0, 0, none⟩ ⟨8000, [], []⟩ "/p/t.py"
    (some 8000) none mainObjectA []).2 (by decide)

/-- C5 counterexample: the reference at `/a/bc.py` survives extraction with
project root `/a/b` — the classifier does return `false` for it, but the
path is not a strict descendant of the root, only a sharer of its string
prefix. -/
theorem no_external_leakage_counterexample :
    c5SiblingRun.referenced_objects = [refSiblingPath] ∧
    is_external_library refSiblingPath.file = false ∧
    isStrictDescendant refSiblingPath.file "/a/b" = false := by decide

/-- Helper: every object kept by the greedy loop carries the file of some
candidate (stand-ins keep the original's file). -/
theorem keepRefs_mem_src (limit : Nat) (refs : List CodeObject) :
    ∀ (current : Nat) (o : CodeObject), o ∈ (keepRefs limit refs current).1 →
      ∃ o' ∈ refs, o.file = o'.file := by
  induction refs with
  | nil => intro current o h; simp [keepRefs] at h
  | cons ref rest ih =>
    intro current o h
    simp only [keepRefs] at h
    split at h
    · rcases List.mem_cons.mp h with h | h
      · exact ⟨ref, List.mem_cons_self _ _, by rw [h]⟩
      · obtain ⟨o', h1, h2⟩ := ih _ _ h
        exact ⟨o', List.mem_cons_of_mem _ h1, h2⟩
    · split at h
      · rcases List.mem_cons.mp h with h | h
        · exact ⟨ref, List.mem_cons_self _ _, by rw [h]⟩
        · obtain ⟨o', h1, h2⟩ := ih _ _ h
          exact ⟨o', List.mem_cons_of_mem _ h1, h2⟩
      · obtain ⟨o', h1, h2⟩ := ih _ _ h
        exact ⟨o', List.mem_cons_of_mem _ h1, h2⟩

/-- C5 amended: every reference in the returned list has a file path the
external-library classifier rejects and of which the configured project
root (the argument, or the target's directory by default) is a string
prefix — string prefix, not strict descendant. -/
theorem no_external_leakage_amended (g : CodeGrapher) (tf : String) (tla : Option Nat)
    (pra : Option String) (main : CodeObject) (refs : List CodeObject)
    (vis : List String) (o : CodeObject)
    (ho : o ∈ (extract_code g tf tla pra main refs vis).2.referenced_objects) :
    is_external_library o.file = false ∧
      pyStartsWith o.file (pra.getD (pyDirname tf)) = true := by
  rw [extract_code_snd] at ho
  have hmem : ∃ o' ∈ refs.filter (fun o => !is_external_library o.file &&
      pyStartsWith o.file (pra.getD (pyDirname tf))), o.file = o'.file := by
    revert ho
    simp only [assemble_result]
    split
    · intro ho
      rw [prioritize_code_refs] at ho
      obtain ⟨o', h1, h2⟩ := keepRefs_mem_src _ _ _ _ ho
      exact ⟨o', (List.perm_insertionSort refLE _).mem_iff.mp h1, h2⟩
    · intro ho
      exact ⟨o, ho, rfl⟩
  obtain ⟨o', h1, h2⟩ := hmem
  obtain ⟨-, hpred⟩ := List.mem_filter.mp h1
  rw [Bool.and_eq_true] at hpred
  obtain ⟨hex, hsw⟩ := hpred
  rw [Bool.not_eq_true'] at hex
  rw [h2]
  exact ⟨hex, hsw⟩

/-- C5 witness: a kept in-root reference at a concrete input. -/
theorem no_external_leakage_amended_witness :
    is_external_library refChildPath.file = false ∧
      pyStartsWith refChildPath.file ((some "/a/b" : Option String).getD
        (pyDirname "/a/b/t.py")) = true :=
  no_external_leakage_amended ⟨8000, [], []⟩ "/a/b/t.py" (some 9999) (some "/a/b")
    mainObjectA [refChildPath] [] refChildPath (by decide)

/-- C6: on a chain of `N > 5` files each importing the next, extraction
terminates with references exactly from files 1..5 — only files within the
import-depth bound of the target — and any resolver branch entered with
depth above the bound aborts at once, leaving the state untouched. -/
theorem chain_import_depth_bound (N : Nat) (h : 5 < N) :
    (chainResolveImports 40 N 0 0 [] ⟨[0], []⟩ =
      some ⟨[5, 4, 3, 2, 1, 0], [1, 2, 3, 4, 5]⟩) ∧
    (∀ i ∈ [1, 2, 3, 4, 5], i ≤ MAX_IMPORT_DEPTH) ∧
    (∀ (fuel N' file depth : Nat) (stack : List Nat) (st : TraversalState),
      MAX_IMPORT_DEPTH < depth → file ∉ stack →
      chainResolveImports (fuel + 1) N' file depth stack st = some st) := by
  refine ⟨?_, by decide, ?_⟩
  · have h1 : (1 : Nat) < N := by omega
    have h2 : (2 : Nat) < N := by omega
    have h3 : (3 : Nat) < N := by omega
    have h4 : (4 : Nat) < N := by omega
    have h5 : (5 : Nat) < N := by omega
    simp [chainResolveImports, chainProcessImportedModule, chainTryFindProjectModule,
      MAX_IMPORT_DEPTH, h1, h2, h3, h4, h5]
  · intro fuel N' file depth stack st hd hf
    simp only [chainResolveImports]
    rw [if_neg hf, if_pos hd]

/-- C6 witness: the chain of eight files. -/
theorem chain_import_depth_bound_witness :
    chainResolveImports 40 8 0 0 [] ⟨[0], []⟩ =
      some ⟨[5, 4, 3, 2, 1, 0], [1, 2, 3, 4, 5]⟩ :=
  (chain_import_depth_bound 8 (by norm_num)).1

theorem nodesSize_append (a b : List PyNode) :
    nodesSize (a ++ b) = nodesSize a + nodesSize b := by
  induction a with
  | nil => simp [nodesSize]
  | cons x xs ih => simp [nodesSize, ih]; omega

theorem nodesSize_children_lt (n : PyNode) :
    nodesSize (nodeChildren n) < nodeSize n := by
  cases n <;> simp [nodesSize, nodeChildren, nodeSize]

theorem nodesSize_childrenOfAll_le (l : List PyNode) :
    nodesSize (childrenOfAll l) ≤ nodesSize l := by
  induction l with
  | nil => simp [childrenOfAll, nodesSize]
  | cons x xs ih =>
    have := nodesSize_children_lt x
    simp [childrenOfAll, nodesSize, nodesSize_append]
    omega

theorem nodesSize_childrenOfAll_lt (x : PyNode) (xs : List PyNode) :
    nodesSize (childrenOfAll (x :: xs)) < nodesSize (x :: xs) := by
  have h1 := nodesSize_children_lt x
  have h2 := nodesSize_childrenOfAll_le xs
  simp [childrenOfAll, nodesSize, nodesSize_append]
  omega

/-- Helper: pulling a whole queue segment through the breadth-first walk. -/
theorem astWalk_append (q r : List PyNode) :
    astWalk (q ++ r) = q ++ astWalk (r ++ childrenOfAll q) := by
  induction q generalizing r with
  | nil => simp [childrenOfAll]
  | cons n t ih =>
    simp only [List.cons_append, astWalk]
    rw [List.append_assoc, ih (r ++ nodeChildren n)]
    simp [childrenOfAll, List.append_assoc]

/-- Helper: the queue-based `ast.walk` yields exactly level order. -/
theorem astWalk_eq_levelOrder : ∀ q : List PyNode, astWalk q = levelOrderNodes q
  | [] => by simp [astWalk, levelOrderNodes]
  | n :: rest => by
    have h := astWalk_append (n :: rest) []
    simp only [List.append_nil, List.nil_append] at h
    rw [h, astWalk_eq_levelOrder (childrenOfAll (n :: rest)), levelOrderNodes]
termination_by q => nodesSize q
decreasing_by
  exact nodesSize_childrenOfAll_lt n rest

/-- Helper: the walk order on the duplicate-name unit, spelled out. -/
theorem astWalk_dupNameModule :
    astWalk [dupNameModule] =
      [dupNameModule,
       PyNode.classDef "A" 1 3 "" [PyNode.functionDef "foo" 2 3 "" []],
       PyNode.functionDef "foo" 4 5 "" [],
       PyNode.functionDef "foo" 2 3 "" []] := by
  simp [astWalk, dupNameModule, nodeChildren]

/-- C7 counterexample: on a unit whose nested `foo` (line 2) precedes a
top-level `foo` (line 4) in declaration order, `_extract_object` returns
the top-level declaration, not the pre-order-first nested one. -/
theorem extract_object_preorder_counterexample :
    extract_object dupNameModule dupNameSource "foo" "/p/t.py" ≠
      preorder_extract_object dupNameModule dupNameSource "foo" "/p/t.py" ∧
    (extract_object dupNameModule dupNameSource "foo" "/p/t.py").map
      (fun o => o.code) = some "def foo():\n    pass" ∧
    (preorder_extract_object dupNameModule dupNameSource "foo" "/p/t.py").map
      (fun o => o.code) = some "    def foo(self):\n        pass" := by
  refine ⟨?_, ?_, ?_⟩
  · unfold extract_object preorder_extract_object
    rw [astWalk_dupNameModule]
    decide
  · unfold extract_object
    rw [astWalk_dupNameModule]
    decide
  · decide

/-- C7 amended: `_extract_object` returns the first name match in
breadth-first (level) order — level by level, shallowest first, declaration
order within a level — so a shallower declaration wins over a deeper one
regardless of which comes first in the source text. -/
theorem extract_object_level_order (t : PyNode) (s o f : String) :
    extract_object t s o f = level_order_extract_object t s o f := by
  unfold extract_object level_order_extract_object
  rw [astWalk_eq_levelOrder]

/-- C8: the claim says the project-tree fallback search stops after roughly
the first 10 entries.  It does not: `found_files` is never appended to, so
the cap at src 557-559 can never fire, and a 20-entry project without the
module is scanned in full — more than 10 entries. -/
theorem project_tree_scan_unbounded :
    (find_project_module_scan "target" [] []
      (List.replicate 20 ⟨"/proj/pkg", ["other.py"]⟩) 0).2 = 20 ∧
    10 < (find_project_module_scan "target" [] []
      (List.replicate 20 ⟨"/proj/pkg", ["other.py"]⟩) 0).2 := by decide

/-- C9: an explicit `token_limit` argument durably overwrites the instance
field — the new state carries it, the call's own result uses it, and a
later call on the returned state that omits the argument still uses it —
while the other two instance fields are reset on entry, so no call depends
on the `visited_files` or `referenced_objects` left by an earlier one. -/
theorem token_limit_override_persists (g : CodeGrapher) (tf tf2 : String) (L : Nat)
    (pra pra2 : Option String) (main main2 : CodeObject)
    (refs refs2 : List CodeObject) (vis vis2 : List String) :
    ((extract_code g tf (some L) pra main refs vis).1.token_limit = L) ∧
    ((extract_code g tf (some L) pra main refs vis).2.token_limit = L) ∧
    ((extract_code (extract_code g tf (some L) pra main refs vis).1 tf2 none pra2
        main2 refs2 vis2).2.token_limit = L) ∧
    (∀ (tl : Nat) (v v' : List String) (rr rr' : List CodeObject) (tla : Option Nat),
      extract_code ⟨tl, v, rr⟩ tf tla pra main refs vis =
        extract_code ⟨tl, v', rr'⟩ tf tla pra main refs vis) := by
  refine ⟨rfl, ?_, ?_, ?_⟩
  · rw [extract_code_snd, assemble_result_token_limit]
    rfl
  · rw [extract_code_snd, assemble_result_token_limit]
    rfl
  · intro tl v v' rr rr' tla
    rfl

/-- Helper: when no prefix of `p` contains `.git`, the climb falls back to
`file_dir`. -/
theorem gitAncestorLoop_no (hasGit : List String → Bool) (fd : List String) :
    ∀ p : List String, (∀ k, k ≤ p.length → hasGit (p.take k) = false) →
      gitAncestorLoop hasGit fd p = fd
  | [], h => by
    have h0 := h 0 (by simp)
    simp only [List.take_nil] at h0
    simp [gitAncestorLoop, h0]
  | c :: t, h => by
    have hp := h (c :: t).length le_rfl
    rw [List.take_length] at hp
    simp only [gitAncestorLoop]
    rw [if_neg (by simp [hp])]
    apply gitAncestorLoop_no hasGit fd ((c :: t).dropLast)
    intro k hk
    rw [List.length_dropLast] at hk
    rw [List.dropLast_eq_take, List.take_take]
    have hmin : min k ((c :: t).length - 1) = k := by omega
    rw [hmin]
    exact h k (by omega)
termination_by p => p.length
decreasing_by simp [List.length_dropLast]

/-- Helper: the climb stops at the longest prefix of `p` that contains
`.git`. -/
theorem gitAncestorLoop_yes (hasGit : List String → Bool) (fd : List String) :
    ∀ (p : List String) (K : Nat), K ≤ p.length → hasGit (p.take K) = true →
      (∀ k, K < k → k ≤ p.length → hasGit (p.take k) = false) →
      gitAncestorLoop hasGit fd p = p.take K
  | p, K, hK, hgit, hmax => by
    by_cases hp : hasGit p = true
    · have hKlen : K = p.length := by
        by_contra hne
        have hlt : K < p.length := lt_of_le_of_ne hK hne
        have hfalse := hmax p.length hlt le_rfl
        rw [List.take_length] at hfalse
        rw [hfalse] at hp
        exact absurd hp (by simp)
      rw [hKlen, List.take_length]
      cases p with
      | nil => simp [gitAncestorLoop, hp]
      | cons c t => simp [gitAncestorLoop, hp]
    · have hKlt : K < p.length := by
        rcases lt_or_eq_of_le hK with hlt | heq
        · exact hlt
        · rw [heq, List.take_length] at hgit
          exact absurd hgit hp
      cases p with
      | nil => simp at hKlt
      | cons c t =>
        simp only [gitAncestorLoop]
        rw [if_neg hp]
        have hrec := gitAncestorLoop_yes hasGit fd ((c :: t).dropLast) K
          (by rw [List.length_dropLast]; omega)
          (by rw [List.dropLast_eq_take, List.take_take]
              have hmin : min K ((c :: t).length - 1) = K := by
                simp only [List.length_cons] at hKlt ⊢
                omega
              rw [hmin]; exact hgit)
          (by intro k hk1 hk2
              rw [List.length_dropLast] at hk2
              rw [List.dropLast_eq_take, List.take_take]
              have hmin : min k ((c :: t).length - 1) = k := by omega
              rw [hmin]
              exact hmax k hk1 (by omega))
        rw [hrec, List.dropLast_eq_take, List.take_take]
        have hmin : min K ((c :: t).length - 1) = K := by
          simp only [List.length_cons] at hKlt ⊢
          omega
        rw [hmin]
termination_by p => p.length
decreasing_by
  subst_vars
  simp [List.length_dropLast]

/-- C10: for every `project_root` argument handed to `extract_code`, the
root of the project-tree fallback search for the target file is the nearest
ancestor (or self) of the file's directory containing a `.git` entry, with
the file's own directory as fallback when no ancestor has one — it never
depends on the `project_root` argument. -/
theorem fallback_search_root_characterization (hasGit : List String → Bool)
    (target_file : List String) (pra : Option (List String)) :
    (extract_code_fallback_search_root hasGit target_file pra =
      gitAncestorLoop hasGit target_file.dropLast target_file.dropLast) ∧
    (∀ K, K ≤ target_file.dropLast.length →
      hasGit (target_file.dropLast.take K) = true →
      (∀ k, K < k → k ≤ target_file.dropLast.length →
        hasGit (target_file.dropLast.take k) = false) →
      extract_code_fallback_search_root hasGit target_file pra =
        target_file.dropLast.take K) ∧
    ((∀ k, k ≤ target_file.dropLast.length →
        hasGit (target_file.dropLast.take k) = false) →
      extract_code_fallback_search_root hasGit target_file pra =
        target_file.dropLast) := by
  refine ⟨rfl, ?_, ?_⟩
  · intro K h1 h2 h3
    exact gitAncestorLoop_yes hasGit _ _ K h1 h2 h3
  · intro h1
    exact gitAncestorLoop_no hasGit _ _ h1

/-- C10 witness: the search root for `/home/user/proj/t.py` when `.git`
sits in `/home/user`, whatever root argument the caller supplied. -/
theorem fallback_search_root_witness :
    extract_code_fallback_search_root (fun p => p == ["home", "user"])
      ["home", "user", "proj", "t.py"] (some ["elsewhere"]) = ["home", "user"] :=
  (fallback_search_root_characterization (fun p => p == ["home", "user"])
    ["home", "user", "proj", "t.py"] (some ["elsewhere"])).2.1 2 (by decide) (by decide)
    (by intro k hk1 hk2
        simp only [List.length_dropLast, List.length_cons, List.length_nil] at hk2
        have hk3 : k = 3 := by omega
        subst hk3
        decide)

end CodeGrapherSpec
